import Mathlib

/-!
Shallow embedding of the Time-Series Health Analytics and Risk Engine
(backend/services/predictor.py, alert_service.py, historical_analyzer.py,
bedrock_service.py).  Machine reals are modelled by the rationals; where
the code can produce the IEEE specials NaN/Infinity we use an explicit
three-constructor type.  Pandas/numpy library calls are modelled by their
documented mathematical semantics, noted at each definition.
-/

/-! ## Health scorer (predictor.py, `FIPDowntimePredictor.calculate_health_score`) -/

/-- One entry of `fip_metrics_config` (predictor.py lines 29-62): critical and
warning thresholds, weight, and the `invert` flag (higher-is-worse metrics). -/
structure MetricConfig where
  threshold_critical : ℚ
  threshold_warning : ℚ
  weight : ℚ
  invert : Bool

/-- `fip_metrics_config['consent_success_rate']`: critical 70, warning 85, weight 0.25. -/
def consent_success_rate_config : MetricConfig := ⟨70, 85, 1/4, false⟩

/-- `fip_metrics_config['data_fetch_success_rate']`: critical 75, warning 90, weight 0.25. -/
def data_fetch_success_rate_config : MetricConfig := ⟨75, 90, 1/4, false⟩

/-- `fip_metrics_config['response_time']`: critical 5.0, warning 3.0, weight 0.20, inverted. -/
def response_time_config : MetricConfig := ⟨5, 3, 1/5, true⟩

/-- `fip_metrics_config['error_rate']`: critical 10, warning 5, weight 0.15, inverted. -/
def error_rate_config : MetricConfig := ⟨10, 5, 3/20, true⟩

/-- `fip_metrics_config['status']`: critical 0.5, warning 0.8, weight 0.15. -/
def status_config : MetricConfig := ⟨1/2, 4/5, 3/20, false⟩

/-- Per-metric score in [0,1] (predictor.py lines 151-177).  Inverted metrics
(`np.where(v <= warning, 1.0, np.where(v <= critical, 1 - (v-warning)/(critical-warning), 0.0))`)
and plain metrics
(`np.where(v >= warning, 1.0, np.where(v >= critical, (v-critical)/(warning-critical), 0.0))`). -/
def metricScore (cfg : MetricConfig) (v : ℚ) : ℚ :=
  if cfg.invert then
    if v ≤ cfg.threshold_warning then 1
    else if v ≤ cfg.threshold_critical then
      1 - (v - cfg.threshold_warning) / (cfg.threshold_critical - cfg.threshold_warning)
    else 0
  else
    if cfg.threshold_warning ≤ v then 1
    else if cfg.threshold_critical ≤ v then
      (v - cfg.threshold_critical) / (cfg.threshold_warning - cfg.threshold_critical)
    else 0

/-- One row of the pivoted metrics DataFrame: the value of each configured
metric, `none` when the metric column is absent (predictor.py line 147 skips
metrics not in `df.columns`). -/
structure MetricSnapshot where
  consent_success_rate : Option ℚ
  data_fetch_success_rate : Option ℚ
  response_time : Option ℚ
  error_rate : Option ℚ
  status : Option ℚ

/-- Weighted contribution of one metric to the health score: `metric_score * weight`
(predictor.py line 179), and 0 when the column is absent. -/
def weightedScore (cfg : MetricConfig) (v : Option ℚ) : ℚ :=
  match v with
  | none => 0
  | some x => metricScore cfg x * cfg.weight

/-- `np.clip(x, lo, hi)` for scalars. -/
def npClip (x lo hi : ℚ) : ℚ := min (max x lo) hi

/-- Composite health score of one row (predictor.py lines 143-186):
the weighted per-metric scores are summed and the result is
`np.clip(health_score * 100, 0, 100)`. -/
def calculate_health_score_row (s : MetricSnapshot) : ℚ :=
  npClip
    ((weightedScore consent_success_rate_config s.consent_success_rate
      + weightedScore data_fetch_success_rate_config s.data_fetch_success_rate
      + weightedScore response_time_config s.response_time
      + weightedScore error_rate_config s.error_rate
      + weightedScore status_config s.status) * 100) 0 100

/-- Risk levels used by `pd.cut(..., labels=['CRITICAL','HIGH','MEDIUM','LOW'])`. -/
inductive RiskLevel
  | CRITICAL
  | HIGH
  | MEDIUM
  | LOW
deriving DecidableEq, Repr

/-- Risk-level bucketing (predictor.py lines 189-194):
`pd.cut(score, bins=[0, 30, 60, 85, 100], labels=[...], include_lowest=True)`.
`pd.cut` builds right-closed intervals, and `include_lowest` closes the first
one on the left, so the buckets are [0,30], (30,60], (60,85], (85,100];
values outside [0,100] get the missing marker (modelled by `none`). -/
def risk_level_of_score (s : ℚ) : Option RiskLevel :=
  if 0 ≤ s ∧ s ≤ 30 then some RiskLevel.CRITICAL
  else if 30 < s ∧ s ≤ 60 then some RiskLevel.HIGH
  else if 60 < s ∧ s ≤ 85 then some RiskLevel.MEDIUM
  else if 85 < s ∧ s ≤ 100 then some RiskLevel.LOW
  else none

/-- C3: the composite health score is always in [0,100]; the five configured
weights (0.25, 0.25, 0.20, 0.15, 0.15) sum to 1; a snapshot with every metric
exactly at its warning threshold scores exactly 100, and one with every metric
exactly at its critical threshold scores exactly 0. -/
theorem health_score_range_and_threshold_extremes :
    (∀ s : MetricSnapshot,
      0 ≤ calculate_health_score_row s ∧ calculate_health_score_row s ≤ 100) ∧
    consent_success_rate_config.weight + data_fetch_success_rate_config.weight
      + response_time_config.weight + error_rate_config.weight
      + status_config.weight = 1 ∧
    calculate_health_score_row ⟨some 85, some 90, some 3, some 5, some (4/5)⟩ = 100 ∧
    calculate_health_score_row ⟨some 70, some 75, some 5, some 10, some (1/2)⟩ = 0 := by
  refine ⟨fun s => ⟨?_, ?_⟩, by norm_num [consent_success_rate_config,
    data_fetch_success_rate_config, response_time_config, error_rate_config,
    status_config],
    by norm_num [calculate_health_score_row, weightedScore, metricScore, npClip,
      consent_success_rate_config, data_fetch_success_rate_config, response_time_config,
      error_rate_config, status_config],
    by norm_num [calculate_health_score_row, weightedScore, metricScore, npClip,
      consent_success_rate_config, data_fetch_success_rate_config, response_time_config,
      error_rate_config, status_config]⟩
  · exact le_min (le_max_right _ _) (by norm_num)
  · exact min_le_right _ _

/-- C1 counterexample: a snapshot whose computed health score is exactly 30 is
bucketed CRITICAL by the code (right-closed `pd.cut` bins), not HIGH as the
claim states. -/
theorem risk_bucket_boundary_counterexample :
    calculate_health_score_row ⟨some 88, some 78, none, none, none⟩ = 30 ∧
    risk_level_of_score 30 = some RiskLevel.CRITICAL ∧
    risk_level_of_score 30 ≠ some RiskLevel.HIGH := by
  refine ⟨by norm_num [calculate_health_score_row, weightedScore, metricScore, npClip,
      consent_success_rate_config, data_fetch_success_rate_config, response_time_config,
      error_rate_config, status_config], by decide, by decide⟩

/-- C1 amended: the bucket boundaries are right-closed: [0,30]=CRITICAL,
(30,60]=HIGH, (60,85]=MEDIUM, (85,100]=LOW, so for every computed health score
a score of exactly 30 maps to CRITICAL, exactly 60 to HIGH, exactly 85 to
MEDIUM, and 100 to LOW. -/
theorem risk_bucket_boundaries_amended :
    (∀ s : MetricSnapshot,
      (calculate_health_score_row s ≤ 30 →
        risk_level_of_score (calculate_health_score_row s) = some RiskLevel.CRITICAL) ∧
      (30 < calculate_health_score_row s → calculate_health_score_row s ≤ 60 →
        risk_level_of_score (calculate_health_score_row s) = some RiskLevel.HIGH) ∧
      (60 < calculate_health_score_row s → calculate_health_score_row s ≤ 85 →
        risk_level_of_score (calculate_health_score_row s) = some RiskLevel.MEDIUM) ∧
      (85 < calculate_health_score_row s →
        risk_level_of_score (calculate_health_score_row s) = some RiskLevel.LOW)) ∧
    risk_level_of_score 30 = some RiskLevel.CRITICAL ∧
    risk_level_of_score 60 = some RiskLevel.HIGH ∧
    risk_level_of_score 85 = some RiskLevel.MEDIUM ∧
    risk_level_of_score 100 = some RiskLevel.LOW := by
  refine ⟨fun s => ?_, by decide, by decide, by decide, by decide⟩
  obtain ⟨h0, h100⟩ : 0 ≤ calculate_health_score_row s ∧ calculate_health_score_row s ≤ 100 :=
    ⟨le_min (le_max_right _ _) (by norm_num), min_le_right _ _⟩
  set x := calculate_health_score_row s with hx
  refine ⟨fun h => ?_, fun h1 h2 => ?_, fun h1 h2 => ?_, fun h1 => ?_⟩ <;>
    unfold risk_level_of_score
  · rw [if_pos ⟨h0, h⟩]
  · rw [if_neg (by rintro ⟨-, hc⟩; linarith), if_pos ⟨h1, h2⟩]
  · rw [if_neg (by rintro ⟨-, hc⟩; linarith), if_neg (by rintro ⟨-, hc⟩; linarith),
      if_pos ⟨h1, h2⟩]
  · rw [if_neg (by rintro ⟨-, hc⟩; linarith), if_neg (by rintro ⟨-, hc⟩; linarith),
      if_neg (by rintro ⟨-, hc⟩; linarith), if_pos ⟨h1, h100⟩]

/-- Witness for the amended C1 theorem: the concrete snapshot scoring exactly
30 is bucketed CRITICAL. -/
theorem risk_bucket_boundaries_amended_witness :
    risk_level_of_score
      (calculate_health_score_row ⟨some 72, some 76, none, none, none⟩)
      = some RiskLevel.CRITICAL :=
  (risk_bucket_boundaries_amended.1 ⟨some 72, some 76, none, none, none⟩).1
    (by norm_num [calculate_health_score_row, weightedScore, metricScore, npClip,
      consent_success_rate_config, data_fetch_success_rate_config, response_time_config,
      error_rate_config, status_config])

/-! ## Maintenance/outage detector (predictor.py, `FIPDowntimePredictor.detect_patterns`) -/

/-- One row of the health-scored DataFrame as consumed by `detect_patterns`:
the composite health score plus the time-based columns `hour` and
`day_of_week` derived from the timestamp (predictor.py lines 197-198). -/
structure HealthRow where
  health_score : ℚ
  hour : ℕ
  day_of_week : ℕ
deriving DecidableEq, Repr

/-- Column `is_weekend` (predictor.py line 199): `day_of_week.isin([5, 6])`. -/
def row_is_weekend (r : HealthRow) : Bool := r.day_of_week == 5 || r.day_of_week == 6

/-- Column `is_business_hours` (predictor.py line 200): `hour.between(9, 17)`;
pandas `between` is inclusive at both ends, and the column does not look at
the weekday. -/
def row_is_business_hours (r : HealthRow) : Bool := 9 ≤ r.hour && r.hour ≤ 17

/-- Downtime mask (predictor.py line 222): `health_score < 30`. -/
def is_downtime_row (r : HealthRow) : Bool := decide (r.health_score < 30)

/-- Group ids produced by `(downtime_mask != downtime_mask.shift()).cumsum()`
(predictor.py line 226): `shift()` puts a missing value in front, which never
compares equal, so the first row opens group 1 and the id increments exactly
where the mask changes value. -/
def groupIdsAux : ℕ → Bool → List Bool → List ℕ
  | _, _, [] => []
  | n, prev, b :: bs =>
    let m := if b != prev then n + 1 else n
    m :: groupIdsAux m b bs

/-- Group-id column for a whole mask column (predictor.py line 226). -/
def downtimeGroupIds : List Bool → List ℕ
  | [] => []
  | b :: bs => 1 :: groupIdsAux 1 b bs

/-- Downtime episodes (predictor.py lines 226-230): the rows are tagged with
their group id, restricted to the downtime rows (`df[downtime_mask]`),
grouped by equal group id (`groupby('downtime_group')` — two downtime rows
share an id exactly when they belong to the same maximal consecutive downtime
run), and only groups with at least 3 samples are kept. -/
def detect_episodes (rows : List HealthRow) : List (List HealthRow) :=
  let ids := downtimeGroupIds (rows.map is_downtime_row)
  let tagged := (rows.zip ids).filter (fun p => is_downtime_row p.1)
  ((tagged.splitBy (fun a b => a.2 == b.2)).map (fun g => g.map Prod.fst)).filter
    (fun g => 3 ≤ g.length)

/-- Maintenance classification of one episode (predictor.py lines 236-239):
`is_maintenance = (group_data['is_business_hours'].sum() == 0 or
group_data['is_weekend'].sum() > 0)`. -/
def classify_is_maintenance (g : List HealthRow) : Bool :=
  (g.countP row_is_business_hours == 0) || decide (0 < g.countP row_is_weekend)

/-- C5: every retained downtime episode is classified as maintenance iff none
of its samples fall in business hours or at least one of its samples falls on
a weekend; an episode entirely on a Saturday is always maintenance, and an
episode whose samples all lie on Monday between 10:00 and 11:59 is never
maintenance. -/
theorem maintenance_classification (rows g : List HealthRow)
    (hg : g ∈ detect_episodes rows) :
    (classify_is_maintenance g = true ↔
      ((∀ r ∈ g, row_is_business_hours r = false) ∨ (∃ r ∈ g, row_is_weekend r = true))) ∧
    ((∀ r ∈ g, r.day_of_week = 5) → classify_is_maintenance g = true) ∧
    ((∀ r ∈ g, r.day_of_week = 0 ∧ 10 ≤ r.hour ∧ r.hour ≤ 11) →
      classify_is_maintenance g = false) := by
  have hlen : 3 ≤ g.length := by
    have := (List.mem_filter.mp hg).2
    exact of_decide_eq_true this
  have hne : g ≠ [] := by
    intro h
    rw [h] at hlen
    simp at hlen
  obtain ⟨r0, hr0⟩ : ∃ r, r ∈ g := by
    cases g with
    | nil => exact absurd rfl hne
    | cons a l => exact ⟨a, List.mem_cons_self a l⟩
  have hiff : classify_is_maintenance g = true ↔
      ((∀ r ∈ g, row_is_business_hours r = false) ∨ (∃ r ∈ g, row_is_weekend r = true)) := by
    unfold classify_is_maintenance
    rw [Bool.or_eq_true, decide_eq_true_eq, beq_iff_eq, List.countP_eq_zero,
      List.countP_pos_iff]
    simp
  refine ⟨hiff, fun hsat => ?_, fun hmon => ?_⟩
  · refine hiff.mpr (Or.inr ⟨r0, hr0, ?_⟩)
    unfold row_is_weekend
    rw [hsat r0 hr0]
    rfl
  · rw [Bool.eq_false_iff]
    intro hcl
    rcases hiff.mp hcl with hnb | ⟨r, hr, hw⟩
    · have := hnb r0 hr0
      obtain ⟨-, h10, h11⟩ := hmon r0 hr0
      unfold row_is_business_hours at this
      rw [Bool.and_eq_false_iff] at this
      rcases this with h | h <;> simp at h <;> omega
    · obtain ⟨hd, -, -⟩ := hmon r hr
      unfold row_is_weekend at hw
      rw [hd] at hw
      simp at hw

/-- Witness for the C5 theorem: a three-sample all-Saturday downtime episode
detected in a concrete row list is classified as maintenance. -/
theorem maintenance_classification_witness :
    classify_is_maintenance [⟨0, 1, 5⟩, ⟨0, 2, 5⟩, ⟨0, 3, 5⟩] = true :=
  (maintenance_classification
      [⟨90, 0, 5⟩, ⟨0, 1, 5⟩, ⟨0, 2, 5⟩, ⟨0, 3, 5⟩, ⟨90, 4, 5⟩]
      [⟨0, 1, 5⟩, ⟨0, 2, 5⟩, ⟨0, 3, 5⟩]
      (by decide)).2.1 (by decide)

/-! ## Frame effects of the scoring passes (predictor.py lines 140 and 222-226) -/

/-- A cell of a pandas column: numeric, boolean, integer or string values
occur in the frames handled here. -/
inductive Cell
  | num (q : ℚ)
  | flag (b : Bool)
  | int (n : ℕ)
  | str (s : String)
deriving DecidableEq, Repr

/-- A DataFrame object as a sequence of named columns. -/
abbrev PandasFrame := List (String × List Cell)

/-- Column lookup `df[name]` (empty for an absent column). -/
def getCol : PandasFrame → String → List Cell
  | [], _ => []
  | c :: rest, name => if c.1 == name then c.2 else getCol rest name

/-- In-place column assignment `df[name] = vals`: replaces the column when the
name exists, otherwise appends a new column at the end. -/
def setCol : PandasFrame → String → List Cell → PandasFrame
  | [], name, vals => [(name, vals)]
  | c :: rest, name, vals =>
    if c.1 == name then (name, vals) :: rest
    else c :: setCol rest name vals

/-- Downtime mask over the `health_score` column (predictor.py line 222):
`df['health_score'] < 30`; non-numeric cells do not occur in that column. -/
def col_downtime_mask (df : PandasFrame) : List Bool :=
  (getCol df "health_score").map (fun c =>
    match c with
    | Cell.num q => decide (q < 30)
    | _ => false)

/-- State of the caller's DataFrame object after `detect_patterns` returns
(predictor.py lines 223 and 226): the function never copies its argument, and
the two statements `df['is_downtime'] = downtime_mask` and
`df['downtime_group'] = (downtime_mask != downtime_mask.shift()).cumsum()`
write straight into it. -/
def detect_patterns_inputAfter (df : PandasFrame) : PandasFrame :=
  let mask := col_downtime_mask df
  setCol (setCol df "is_downtime" (mask.map Cell.flag))
    "downtime_group" ((downtimeGroupIds mask).map Cell.int)

/-- State of the caller's DataFrame object after `calculate_health_score`
returns (predictor.py line 140): the first statement `df = df.copy()` rebinds
the local name to a fresh copy, so every later column write hits the copy and
the caller's frame is untouched. -/
def calculate_health_score_inputAfter (df : PandasFrame) : PandasFrame := df

/-- Column reads at other names are unchanged by a column write. -/
theorem getCol_setCol_ne (df : PandasFrame) (n c : String) (v : List Cell)
    (h : c ≠ n) : getCol (setCol df n v) c = getCol df c := by
  induction df with
  | nil =>
    simp only [setCol, getCol]
    rw [if_neg (by simpa using fun hc => h hc.symm)]
  | cons hd tl ih =>
    simp only [setCol]
    by_cases h1 : hd.1 = n
    · rw [if_pos (by simpa using h1)]
      simp only [getCol]
      rw [if_neg (by simpa using fun hc => h hc.symm),
        if_neg (by rw [h1]; simpa using fun hc => h hc.symm)]
    · rw [if_neg (by simpa using h1)]
      simp only [getCol]
      by_cases h2 : hd.1 = c
      · rw [if_pos (by simpa using h2), if_pos (by simpa using h2)]
      · rw [if_neg (by simpa using h2), if_neg (by simpa using h2)]
        exact ih

/-- C10 counterexample: `detect_patterns` mutates its input DataFrame — on a
concrete one-column frame the caller's object has gained the columns
`is_downtime` and `downtime_group` after the call. -/
theorem scoring_mutation_counterexample :
    detect_patterns_inputAfter [("health_score", [Cell.num 10])]
      ≠ [("health_score", [Cell.num 10])] := by decide

/-- C10 amended: the health-scoring pass copies its input and leaves the
caller's frame unchanged, while the pattern-detection pass mutates its input
by adding the columns `is_downtime` and `downtime_group` in place, leaving
every other column unchanged. -/
theorem scoring_frame_effects_amended :
    (∀ df : PandasFrame, calculate_health_score_inputAfter df = df) ∧
    (∀ (df : PandasFrame) (c : String), c ≠ "is_downtime" → c ≠ "downtime_group" →
      getCol (detect_patterns_inputAfter df) c = getCol df c) := by
  refine ⟨fun df => rfl, fun df c h1 h2 => ?_⟩
  unfold detect_patterns_inputAfter
  rw [getCol_setCol_ne _ _ _ _ h2, getCol_setCol_ne _ _ _ _ h1]

/-- Witness for the amended C10 theorem: on a concrete frame the
`health_score` column is unchanged by the pattern-detection pass. -/
theorem scoring_frame_effects_amended_witness :
    getCol (detect_patterns_inputAfter [("health_score", [Cell.num 50])]) "health_score"
      = [Cell.num 50] := by
  rw [scoring_frame_effects_amended.2 [("health_score", [Cell.num 50])] "health_score"
    (by decide) (by decide)]
  rfl

/-! ## Alert generator (alert_service.py, `AlertService`) -/

/-- The fields of the `Alert` dataclass (alert_service.py lines 27-38) that
the deduplication and ordering logic reads; the metrics/context/action
payloads take no part in either. -/
structure Alert where
  fip_name : String
  severity : String
  alert_type : String
  message : String
  confidence : ℚ
deriving DecidableEq, Repr

/-- Deduplication key (alert_service.py line 486):
`f"{alert.fip_name}:{alert.alert_type}:{alert.severity}"`. -/
def alertKey (a : Alert) : String :=
  a.fip_name ++ ":" ++ a.alert_type ++ ":" ++ a.severity

/-- Loop of `_deduplicate_alerts` (alert_service.py lines 479-492), with the
`seen_combinations` set threaded through: an alert is kept exactly when its
key has not been seen yet. -/
def deduplicate_alerts_aux : List Alert → List String → List Alert
  | [], _ => []
  | a :: rest, seen =>
    if alertKey a ∈ seen then deduplicate_alerts_aux rest seen
    else a :: deduplicate_alerts_aux rest (alertKey a :: seen)

/-- `_deduplicate_alerts` (alert_service.py lines 479-492). -/
def deduplicate_alerts (alerts : List Alert) : List Alert :=
  deduplicate_alerts_aux alerts []

/-- Stable comparator of the final sort (alert_service.py line 172):
`alerts.sort(key=lambda x: (x.severity == 'critical', x.confidence),
reverse=True)`.  Python sorts are stable and `reverse=True` reverses the key
comparison only, so the pass is a stable sort in which `a` may precede `b`
exactly when the key of `a` is at least the key of `b` in the lexicographic
(bool, rational) order. -/
def alert_sort_le (a b : Alert) : Bool :=
  ((a.severity == "critical") && !(b.severity == "critical"))
    || (((a.severity == "critical") == (b.severity == "critical"))
        && decide (b.confidence ≤ a.confidence))

/-- The sort of alert_service.py line 172 as a stable merge sort. -/
def sort_alerts (alerts : List Alert) : List Alert :=
  alerts.mergeSort alert_sort_le

/-- Post-processing applied to the generated alerts before `generate_alerts`
returns (alert_service.py lines 169-172): deduplication, then the severity
and confidence sort. -/
def generate_alerts_post (alerts : List Alert) : List Alert :=
  sort_alerts (deduplicate_alerts alerts)

/-- Severity rank in the order claimed by the specification:
critical before warning before info. -/
def sevRank (s : String) : ℕ :=
  if s == "critical" then 0 else if s == "warning" then 1 else 2

theorem alert_sort_le_total (a b : Alert) :
    (alert_sort_le a b || alert_sort_le b a) = true := by
  unfold alert_sort_le
  cases h1 : (a.severity == "critical") <;> cases h2 : (b.severity == "critical") <;>
    simp <;> exact le_total _ _

theorem alert_sort_le_trans (a b c : Alert) (hab : alert_sort_le a b = true)
    (hbc : alert_sort_le b c = true) : alert_sort_le a c = true := by
  unfold alert_sort_le at *
  cases h1 : (a.severity == "critical") <;> cases h2 : (b.severity == "critical") <;>
    cases h3 : (c.severity == "critical") <;> simp_all <;> linarith

theorem deduplicate_alerts_aux_sublist (l : List Alert) (seen : List String) :
    (deduplicate_alerts_aux l seen).Sublist l := by
  induction l generalizing seen with
  | nil => simp [deduplicate_alerts_aux]
  | cons a rest ih =>
    simp only [deduplicate_alerts_aux]
    split_ifs with h
    · exact (ih seen).cons a
    · exact (ih _).cons₂ a

theorem deduplicate_alerts_aux_key_not_seen (l : List Alert) (seen : List String)
    (a : Alert) (ha : a ∈ deduplicate_alerts_aux l seen) : alertKey a ∉ seen := by
  induction l generalizing seen with
  | nil => simp [deduplicate_alerts_aux] at ha
  | cons b rest ih =>
    simp only [deduplicate_alerts_aux] at ha
    split_ifs at ha with h
    · exact ih seen ha
    · rcases List.mem_cons.mp ha with rfl | h2
      · exact h
      · intro hc
        exact ih _ h2 (List.mem_cons_of_mem _ hc)

theorem deduplicate_alerts_aux_pairwise (l : List Alert) (seen : List String) :
    (deduplicate_alerts_aux l seen).Pairwise (fun a b => alertKey a ≠ alertKey b) := by
  induction l generalizing seen with
  | nil => simp [deduplicate_alerts_aux]
  | cons a rest ih =>
    simp only [deduplicate_alerts_aux]
    split_ifs with h
    · exact ih seen
    · refine List.Pairwise.cons (fun b hb heq => ?_) (ih _)
      exact deduplicate_alerts_aux_key_not_seen rest _ b hb
        (by rw [← heq]; exact List.mem_cons_self _ _)

theorem deduplicate_alerts_aux_first (l : List Alert) (a : Alert)
    (ha : a ∈ l) : ∀ seen : List String, alertKey a ∉ seen →
    ∃ b, l.find? (fun x => alertKey x == alertKey a) = some b ∧
      b ∈ deduplicate_alerts_aux l seen := by
  induction l with
  | nil => simp at ha
  | cons c rest ih =>
    intro seen hk
    by_cases hc : alertKey c = alertKey a
    · refine ⟨c, ?_, ?_⟩
      · rw [List.find?_cons_of_pos _ (by simp [hc])]
      · simp only [deduplicate_alerts_aux]
        rw [if_neg (hc ▸ hk)]
        exact List.mem_cons_self _ _
    · have ha2 : a ∈ rest := by
        rcases List.mem_cons.mp ha with rfl | h
        · exact absurd rfl hc
        · exact h
      simp only [deduplicate_alerts_aux]
      rw [List.find?_cons_of_neg _ (by simp [hc])]
      split_ifs with hseen
      · exact ih ha2 seen hk
      · obtain ⟨b, hf, hb⟩ := ih ha2 (alertKey c :: seen)
          (by
            intro hmem
            rcases List.mem_cons.mp hmem with heq | h
            · exact hc heq.symm
            · exact hk h)
        exact ⟨b, hf, List.mem_cons_of_mem _ hb⟩

/-- C7: deduplication returns an order-preserving subsequence of its input in
which at most one alert survives per key, and for every raw alert the
survivor carrying its key is the first alert of the input with that key
(so of two same-key alerts with different messages, the first generated
survives). -/
theorem alert_dedup_first_survivor (alerts : List Alert) :
    (deduplicate_alerts alerts).Sublist alerts ∧
    (deduplicate_alerts alerts).Pairwise (fun a b => alertKey a ≠ alertKey b) ∧
    ∀ a ∈ alerts, ∃ b,
      alerts.find? (fun x => alertKey x == alertKey a) = some b ∧
      b ∈ deduplicate_alerts alerts :=
  ⟨deduplicate_alerts_aux_sublist alerts [],
   deduplicate_alerts_aux_pairwise alerts [],
   fun a ha => deduplicate_alerts_aux_first alerts a ha [] (by simp)⟩

/-- Witness for the C7 theorem: of two concrete same-key alerts that differ
only in message, the first of the input survives deduplication. -/
theorem alert_dedup_first_survivor_witness :
    ∃ b, (List.find? (fun x => alertKey x == alertKey ⟨"sbi", "critical", "consent_rate_violation", "second", 19/20⟩)
        [⟨"sbi", "critical", "consent_rate_violation", "first", 19/20⟩,
         ⟨"sbi", "critical", "consent_rate_violation", "second", 19/20⟩]) = some b ∧
      b ∈ deduplicate_alerts
        [⟨"sbi", "critical", "consent_rate_violation", "first", 19/20⟩,
         ⟨"sbi", "critical", "consent_rate_violation", "second", 19/20⟩] :=
  (alert_dedup_first_survivor
      [⟨"sbi", "critical", "consent_rate_violation", "first", 19/20⟩,
       ⟨"sbi", "critical", "consent_rate_violation", "second", 19/20⟩]).2.2
    ⟨"sbi", "critical", "consent_rate_violation", "second", 19/20⟩ (by simp)

/-- C2: the alerts produced by the generation checks of `generate_alerts`
always carry severity critical or warning (each `_create_alert` call in
`_check_threshold_violations`, `_check_trend_anomalies`,
`_check_pattern_anomalies` and `_check_stability_issues` passes one of the
two), and for every such list the post-processed output is a permutation of
the deduplicated alerts that is sorted by severity — critical first, then
warning, then info by rank — with descending confidence inside a severity
level. -/
theorem generated_alert_ordering (alerts : List Alert)
    (hsev : ∀ a ∈ alerts, a.severity = "critical" ∨ a.severity = "warning") :
    (generate_alerts_post alerts).Perm (deduplicate_alerts alerts) ∧
    (generate_alerts_post alerts).Pairwise (fun a b =>
      sevRank a.severity < sevRank b.severity ∨
        (a.severity = b.severity ∧ b.confidence ≤ a.confidence)) := by
  refine ⟨List.mergeSort_perm _ _, ?_⟩
  have hmem : ∀ a ∈ generate_alerts_post alerts, a ∈ alerts := by
    intro a ha
    exact (deduplicate_alerts_aux_sublist alerts []).subset
      (((List.mergeSort_perm _ alert_sort_le).mem_iff).mp ha)
  have hsorted : (generate_alerts_post alerts).Pairwise
      (fun a b => alert_sort_le a b = true) :=
    List.sorted_mergeSort alert_sort_le_trans alert_sort_le_total _
  refine hsorted.imp_of_mem ?_
  intro a b ha hb hle
  have hsa := hsev a (hmem a ha)
  have hsb := hsev b (hmem b hb)
  unfold alert_sort_le at hle
  rcases hsa with hsa | hsa <;> rcases hsb with hsb | hsb <;>
    rw [hsa, hsb] at hle ⊢ <;> simp only [sevRank] <;> simp at hle ⊢
  · exact hle
  · exact hle

/-- Witness for the C2 theorem at a concrete generated alert list with one
warning and one critical alert. -/
theorem generated_alert_ordering_witness :
    (generate_alerts_post
        [⟨"sbi", "warning", "stability_issue", "w", 1/2⟩,
         ⟨"sbi", "critical", "consent_rate_violation", "c", 1/4⟩]).Perm
      (deduplicate_alerts
        [⟨"sbi", "warning", "stability_issue", "w", 1/2⟩,
         ⟨"sbi", "critical", "consent_rate_violation", "c", 1/4⟩]) ∧
    (generate_alerts_post
        [⟨"sbi", "warning", "stability_issue", "w", 1/2⟩,
         ⟨"sbi", "critical", "consent_rate_violation", "c", 1/4⟩]).Pairwise
      (fun a b => sevRank a.severity < sevRank b.severity ∨
        (a.severity = b.severity ∧ b.confidence ≤ a.confidence)) :=
  generated_alert_ordering
    [⟨"sbi", "warning", "stability_issue", "w", 1/2⟩,
     ⟨"sbi", "critical", "consent_rate_violation", "c", 1/4⟩]
    (by
      intro a ha
      rcases List.mem_cons.mp ha with rfl | ha
      · exact Or.inr rfl
      · rcases List.mem_cons.mp ha with rfl | ha
        · exact Or.inl rfl
        · simp at ha)

/-! ## 24-hour risk forecaster (predictor.py, `predict_next_24h_risks`) -/

/-- The `patterns['recurring_patterns']` entries read by the forecaster
(predictor.py lines 264-268): high-risk hour and weekday recurrence sets and
the weekend downtime rate (a mean of 0/1 indicators, hence nonnegative when
defined). -/
structure RecurringPatterns where
  high_risk_hours : List ℕ
  high_risk_days : List ℕ
  weekend_risk : ℚ

/-- The `patterns['risk_trends']` entries read by the forecaster
(predictor.py lines 273-278). -/
structure RiskTrends where
  current_health_score : ℚ
  health_trend_24h : ℚ

/-- Hour of `now + timedelta(hours=k)` (predictor.py lines 303-304): adding
whole hours leaves the minutes alone, so the hour advances mod 24. -/
def slot_hour (hour0 k : ℕ) : ℕ := (hour0 + k) % 24

/-- Weekday of `now + timedelta(hours=k)` (predictor.py line 305): the day
advances exactly when the hour count wraps past midnight. -/
def slot_day_of_week (day0 hour0 k : ℕ) : ℕ := (day0 + (hour0 + k) / 24) % 7

/-- Risk score of one forecast slot (predictor.py lines 310-336): the
sequence of `base_risk` updates followed by `risk_score = min(base_risk, 1.0)`. -/
def slot_risk (rp : RecurringPatterns) (rt : RiskTrends) (hour day : ℕ) : ℚ :=
  let r1 : ℚ := 1/10
  let r2 := if hour ∈ rp.high_risk_hours then r1 + 3/10 else r1
  let r3 := if day ∈ rp.high_risk_days then r2 + 1/5 else r2
  let r4 := if day = 5 ∨ day = 6 then r3 + rp.weekend_risk * (1/2) else r3
  let r5 := if rt.health_trend_24h < -1 then r4 + 1/5
            else if 1 < rt.health_trend_24h then r4 - 1/10 else r4
  let r6 := if rt.current_health_score < 50 then r5 + 3/10
            else if rt.current_health_score < 70 then r5 + 1/10 else r5
  min r6 1

/-- Trend contribution of the additive risk formula as the specification
words it: +0.20 when the recent health trend is below -1, -0.10 when it is
above +1. -/
def trend_contribution (rt : RiskTrends) : ℚ :=
  if rt.health_trend_24h < -1 then 1/5
  else if 1 < rt.health_trend_24h then -(1/10) else 0

/-- Health contribution of the additive risk formula as the specification
words it: +0.30 when the current health score is below 50, else +0.10 when it
is below 70. -/
def health_contribution (rt : RiskTrends) : ℚ :=
  if rt.current_health_score < 50 then 3/10
  else if rt.current_health_score < 70 then 1/10 else 0

/-- The additive risk formula as the specification words it: a 0.10 base plus
the five independent contributions. -/
def slot_risk_additive (rp : RecurringPatterns) (rt : RiskTrends)
    (hour day : ℕ) : ℚ :=
  1/10 + (if hour ∈ rp.high_risk_hours then 3/10 else 0)
       + (if day ∈ rp.high_risk_days then 1/5 else 0)
       + (if day = 5 ∨ day = 6 then rp.weekend_risk * (1/2) else 0)
       + trend_contribution rt + health_contribution rt

/-- The reported high-risk periods (predictor.py lines 302 and 338-350),
modelled by the slot offset and risk score of each RiskWindow: for each of
the 24 hourly offsets the slot risk is computed and the slot is reported
exactly when its risk exceeds 0.4. -/
def predict_next_24h_risks_slots (rp : RecurringPatterns) (rt : RiskTrends)
    (hour0 day0 : ℕ) : List (ℕ × ℚ) :=
  ((List.range 24).map (fun k =>
      (k, slot_risk rp rt (slot_hour hour0 k) (slot_day_of_week day0 hour0 k)))).filter
    (fun p => decide ((2:ℚ)/5 < p.2))

theorem ite_add_shift (c : Prop) [Decidable c] (x a : ℚ) :
    (if c then x + a else x) = x + (if c then a else 0) := by
  split_ifs <;> ring

theorem ite_sub3_shift (c1 c2 : Prop) [Decidable c1] [Decidable c2] (x a b : ℚ) :
    (if c1 then x + a else if c2 then x - b else x)
      = x + (if c1 then a else if c2 then -b else 0) := by
  split_ifs <;> ring

theorem ite_add3_shift (c1 c2 : Prop) [Decidable c1] [Decidable c2] (x a b : ℚ) :
    (if c1 then x + a else if c2 then x + b else x)
      = x + (if c1 then a else if c2 then b else 0) := by
  split_ifs <;> ring

theorem slot_risk_eq_additive (rp : RecurringPatterns) (rt : RiskTrends)
    (hour day : ℕ) :
    slot_risk rp rt hour day = min (slot_risk_additive rp rt hour day) 1 := by
  simp only [slot_risk, slot_risk_additive, trend_contribution, health_contribution]
  rw [ite_add_shift, ite_add_shift, ite_add_shift, ite_sub3_shift, ite_add3_shift]

theorem slot_risk_additive_nonneg (rp : RecurringPatterns) (rt : RiskTrends)
    (hour day : ℕ) (hwr : 0 ≤ rp.weekend_risk) :
    0 ≤ slot_risk_additive rp rt hour day := by
  unfold slot_risk_additive trend_contribution health_contribution
  split_ifs <;> linarith

/-- C4: for every forecast slot the risk score is the additive formula of the
specification clamped to [0,1] (the code clamps from above with
`min(base_risk, 1.0)` and the additive value is never negative when the
weekend risk rate is nonnegative); a slot is reported as a RiskWindow iff its
risk score exceeds 0.4; and with empty recurrence sets, no weekend downtime
rate, a non-declining trend, and current health at least 70, no slot is
reported. -/
theorem risk_forecast_formula (rp : RecurringPatterns) (rt : RiskTrends)
    (hour0 day0 : ℕ) (hwr : 0 ≤ rp.weekend_risk) :
    (∀ hour day : ℕ, slot_risk rp rt hour day
        = min (max (slot_risk_additive rp rt hour day) 0) 1) ∧
    (∀ k : ℕ, ∀ r : ℚ, ((k, r) ∈ predict_next_24h_risks_slots rp rt hour0 day0 ↔
        k < 24 ∧ r = slot_risk rp rt (slot_hour hour0 k) (slot_day_of_week day0 hour0 k)
          ∧ 2/5 < r)) ∧
    (rp.high_risk_hours = [] → rp.high_risk_days = [] → rp.weekend_risk = 0 →
      ¬ rt.health_trend_24h < -1 → 70 ≤ rt.current_health_score →
      predict_next_24h_risks_slots rp rt hour0 day0 = []) := by
  refine ⟨fun hour day => ?_, fun k r => ?_, fun hh hd hw ht hc => ?_⟩
  · rw [slot_risk_eq_additive,
      max_eq_left (slot_risk_additive_nonneg rp rt hour day hwr)]
  · unfold predict_next_24h_risks_slots
    constructor
    · intro h
      rw [List.mem_filter] at h
      obtain ⟨hm, hp⟩ := h
      rw [List.mem_map] at hm
      obtain ⟨a, haR, heq⟩ := hm
      obtain ⟨ha1, ha2⟩ := Prod.mk.injEq _ _ _ _ ▸ heq
      subst ha1
      exact ⟨List.mem_range.mp haR, ha2.symm, by simpa using hp⟩
    · rintro ⟨hk, rfl, hr⟩
      rw [List.mem_filter]
      exact ⟨List.mem_map.mpr ⟨k, List.mem_range.mpr hk, rfl⟩, by simpa using hr⟩
  · have hb : ∀ hour day : ℕ, slot_risk rp rt hour day ≤ 2/5 := by
      intro hour day
      rw [slot_risk_eq_additive]
      refine le_trans (min_le_left _ _) ?_
      unfold slot_risk_additive trend_contribution health_contribution
      rw [hh, hd, hw]
      split_ifs <;> simp_all <;> linarith
    unfold predict_next_24h_risks_slots
    rw [List.filter_eq_nil_iff]
    intro p hp
    rw [List.mem_map] at hp
    obtain ⟨a, -, rfl⟩ := hp
    simpa using not_lt.mpr (hb _ _)

/-- Witness for the C4 theorem: with a healthy baseline (empty recurrence
sets, zero weekend risk, flat trend, health score 100) the forecast reports
zero RiskWindows. -/
theorem risk_forecast_formula_witness :
    predict_next_24h_risks_slots ⟨[], [], 0⟩ ⟨100, 0⟩ 13 2 = [] :=
  (risk_forecast_formula ⟨[], [], 0⟩ ⟨100, 0⟩ 13 2 (by norm_num)).2.2
    rfl rfl rfl (by norm_num) (by norm_num)

/-! ## Feature calculator statistics (historical_analyzer.py) and trend
helpers (alert_service.py) -/

/-- The non-missing values of a series: pandas `Series.dropna()`. -/
def nonMissing (series : List (Option ℚ)) : List ℚ := series.filterMap id

/-- Mean of a list of values (`values.mean()`); every use below is guarded by
nonemptiness, matching the `len(values) > 0` checks of the source. -/
def seriesMean (l : List ℚ) : ℚ := l.sum / l.length

/-- A float as produced by the engine: a finite rational or one of the IEEE
specials NaN and Infinity. -/
inductive PyFloat
  | finite (q : ℚ)
  | nan
  | inf
deriving DecidableEq, Repr

/-- Finiteness of an engine float. -/
def PyFloat.isFinite : PyFloat → Bool
  | PyFloat.finite _ => true
  | _ => false

/-- Sample variance with ddof = 1, the square of `values.std()` for two or
more observations. -/
def sampleVariance (l : List ℚ) : ℚ :=
  (l.map (fun x => (x - seriesMean l) ^ 2)).sum / ((l.length : ℚ) - 1)

/-- pandas `Series.std()` (ddof = 1): NaN for fewer than 2 observations, else
the square root of the sample variance.  The square root of a nonnegative
finite rational is finite, and only finiteness and NaN-ness of the result
matter to the claims, so the finite payload carries the variance (the square
of the std). -/
def seriesStd (l : List ℚ) : PyFloat :=
  if l.length < 2 then PyFloat.nan else PyFloat.finite (sampleVariance l)

/-- Division of the std object by a nonzero finite mean: NaN and Infinity
propagate, and a finite std yields the finite quotient std/mean, carried as
its square variance/mean^2. -/
def pyDivStdByMean (s : PyFloat) (m : ℚ) : PyFloat :=
  match s with
  | PyFloat.nan => PyFloat.nan
  | PyFloat.inf => PyFloat.inf
  | PyFloat.finite v => PyFloat.finite (v / m ^ 2)

/-- The fields of `_calculate_statistical_features` (historical_analyzer.py
lines 252-263) whose finiteness and degenerate cases the claims inspect:
mean, std, min, max and the coefficient of variation; the median, quantile,
skewness and kurtosis fields are not modelled. -/
structure StatFeatures where
  mean : PyFloat
  std : PyFloat
  min : PyFloat
  max : PyFloat
  coefficient_of_variation : PyFloat
deriving DecidableEq, Repr

/-- `_calculate_statistical_features` for one metric (historical_analyzer.py
lines 249-264): the series is dropna-ed; with no values left the metric is
skipped (`none`); otherwise the statistics are computed, the coefficient of
variation guarded by `float(values.std() / values.mean()) if values.mean()
!= 0 else 0`. -/
def statistical_features (series : List (Option ℚ)) : Option StatFeatures :=
  let values := nonMissing series
  if 0 < values.length then
    some
      { mean := PyFloat.finite (seriesMean values)
        std := seriesStd values
        min :=
          match values.min? with
          | some m => PyFloat.finite m
          | none => PyFloat.nan
        max :=
          match values.max? with
          | some m => PyFloat.finite m
          | none => PyFloat.nan
        coefficient_of_variation :=
          if seriesMean values ≠ 0 then pyDivStdByMean (seriesStd values) (seriesMean values)
          else PyFloat.finite 0 }
  else none

/-- The per-metric coefficient of variation of `_calculate_stability_features`
(historical_analyzer.py line 451): `values.std() / values.mean() if
values.mean() != 0 else float('inf')` — an explicit Infinity for a zero-mean
series. -/
def stability_metric_cv (values : List ℚ) : PyFloat :=
  if seriesMean values ≠ 0 then pyDivStdByMean (seriesStd values) (seriesMean values)
  else PyFloat.inf

/-- A value reaching JSON serialization: the plain Python shapes together
with the numpy scalar and array shapes the engine produces. -/
inductive SVal
  | vint (n : ℤ)
  | vfloat (f : PyFloat)
  | vstr (s : String)
  | vlist (l : List SVal)
  | npint (n : ℤ)
  | npfloat (f : PyFloat)
  | nparray (l : List SVal)

/-- A plain JSON value: no numpy shape can occur in it. -/
inductive JVal
  | jint (n : ℤ)
  | jfloat (f : PyFloat)
  | jstr (s : String)
  | jlist (l : List JVal)

/-- `NumpyEncoder.default` (bedrock_service.py lines 10-19) as applied by
`json.dumps` at every node: numpy integers become plain ints, numpy floats
plain floats, numpy arrays plain lists, and plain values pass through; the
float payload — NaN included — is preserved untouched. -/
def numpy_encode : SVal → JVal
  | SVal.vint n => JVal.jint n
  | SVal.vfloat f => JVal.jfloat f
  | SVal.vstr s => JVal.jstr s
  | SVal.vlist l => JVal.jlist (l.attach.map (fun x => numpy_encode x.1))
  | SVal.npint n => JVal.jint n
  | SVal.npfloat f => JVal.jfloat f
  | SVal.nparray l => JVal.jlist (l.attach.map (fun x => numpy_encode x.1))
decreasing_by
  all_goals
    simp_wf
    have hx := List.sizeOf_lt_of_mem x.2
    omega

theorem statistical_features_eval (series : List (Option ℚ))
    (h0 : 0 < (nonMissing series).length) :
    ∃ m1 m2 : ℚ, (nonMissing series).min? = some m1 ∧
      (nonMissing series).max? = some m2 ∧
      statistical_features series = some
        { mean := PyFloat.finite (seriesMean (nonMissing series))
          std := seriesStd (nonMissing series)
          min := PyFloat.finite m1
          max := PyFloat.finite m2
          coefficient_of_variation :=
            if seriesMean (nonMissing series) ≠ 0 then
              pyDivStdByMean (seriesStd (nonMissing series)) (seriesMean (nonMissing series))
            else PyFloat.finite 0 } := by
  have hne : nonMissing series ≠ [] := by
    intro h
    rw [h] at h0
    simp at h0
  obtain ⟨m1, hm1⟩ : ∃ m1, (nonMissing series).min? = some m1 := by
    cases h : (nonMissing series).min? with
    | none => exact absurd (List.min?_eq_none_iff.mp h) hne
    | some m => exact ⟨m, rfl⟩
  obtain ⟨m2, hm2⟩ : ∃ m2, (nonMissing series).max? = some m2 := by
    cases h : (nonMissing series).max? with
    | none => exact absurd (List.max?_eq_none_iff.mp h) hne
    | some m => exact ⟨m, rfl⟩
  refine ⟨m1, m2, hm1, hm2, ?_⟩
  simp only [statistical_features]
  rw [if_pos h0, hm1, hm2]

/-- C6 counterexample: not every numeric value of the engine output is
finite — a series with a single non-missing point has std = NaN in its
statistical features, a zero-mean series has an infinite stability
coefficient of variation, and the NumpyEncoder passes a NaN payload through
untouched rather than converting it. -/
theorem featureset_finiteness_counterexample :
    (∃ sf : StatFeatures, statistical_features [some 5] = some sf ∧
      sf.std = PyFloat.nan) ∧
    stability_metric_cv [-3, 3] = PyFloat.inf ∧
    numpy_encode (SVal.npfloat PyFloat.nan) = JVal.jfloat PyFloat.nan := by
  obtain ⟨m1, m2, hm1, hm2, heq⟩ := statistical_features_eval [some 5] (by decide)
  have hstd : seriesStd (nonMissing [some 5]) = PyFloat.nan := by
    unfold seriesStd
    rw [if_pos (by decide)]
  refine ⟨⟨_, heq, hstd⟩, ?_, by simp [numpy_encode]⟩
  have hz : seriesMean [(-3 : ℚ), 3] = 0 := by norm_num [seriesMean]
  unfold stability_metric_cv
  rw [if_neg (by simp [hz])]

/-- C6 amended: the engine does not sanitize NaN/Infinity, but the modelled
statistical features (mean, std, min, max, coefficient of variation) are all
finite for every series with at least two non-missing points and nonzero
mean, and the NumpyEncoder converts every extended numeric type — numpy
integers, floats and arrays — to plain int/float/list values. -/
theorem featureset_finiteness_amended :
    (∀ series : List (Option ℚ), 2 ≤ (nonMissing series).length →
      seriesMean (nonMissing series) ≠ 0 →
      ∃ sf : StatFeatures, statistical_features series = some sf ∧
        sf.mean.isFinite = true ∧ sf.std.isFinite = true ∧
        sf.min.isFinite = true ∧ sf.max.isFinite = true ∧
        sf.coefficient_of_variation.isFinite = true) ∧
    (∀ n : ℤ, numpy_encode (SVal.npint n) = JVal.jint n) ∧
    (∀ f : PyFloat, numpy_encode (SVal.npfloat f) = JVal.jfloat f) ∧
    (∀ l : List SVal, numpy_encode (SVal.nparray l) = JVal.jlist (l.map numpy_encode)) := by
  refine ⟨fun series h2 hm => ?_, fun n => by simp [numpy_encode],
    fun f => by simp [numpy_encode],
    fun l => by
      rw [numpy_encode]
      rw [List.attach_map_coe]⟩
  obtain ⟨m1, m2, hm1, hm2, heq⟩ := statistical_features_eval series (by omega)
  have hstd : seriesStd (nonMissing series)
      = PyFloat.finite (sampleVariance (nonMissing series)) := by
    unfold seriesStd
    rw [if_neg (by omega)]
  refine ⟨_, heq, rfl, ?_, rfl, rfl, ?_⟩
  · rw [hstd]
    rfl
  · rw [if_pos hm, hstd]
    rfl

/-- Witness for the amended C6 theorem: a concrete two-point series with
nonzero mean has all modelled statistical fields finite. -/
theorem featureset_finiteness_amended_witness :
    ∃ sf : StatFeatures, statistical_features [some 1, some 2] = some sf ∧
      sf.mean.isFinite = true ∧ sf.std.isFinite = true ∧
      sf.min.isFinite = true ∧ sf.max.isFinite = true ∧
      sf.coefficient_of_variation.isFinite = true :=
  featureset_finiteness_amended.1 [some 1, some 2] (by decide)
    (by
      have h : nonMissing [some 1, some 2] = [(1 : ℚ), 2] := by simp [nonMissing]
      rw [h]
      norm_num [seriesMean])

/-- Sum of the index positions 0..n-1, as rationals. -/
def idxSum (n : ℕ) : ℚ := ∑ i ∈ Finset.range n, (i : ℚ)

/-- Sum of the squared index positions 0..n-1. -/
def idxSqSum (n : ℕ) : ℚ := ∑ i ∈ Finset.range n, (i : ℚ) ^ 2

/-- Sum of the index-weighted series values. -/
def idxValSum (ys : List ℚ) : ℚ :=
  ∑ i ∈ Finset.range ys.length, (i : ℚ) * ys.getD i 0

/-- Sum of the series values. -/
def valSum (ys : List ℚ) : ℚ := ∑ i ∈ Finset.range ys.length, ys.getD i 0

/-- Numerator of the ordinary-least-squares slope of
`np.polyfit(np.arange(n), ys, 1)` in the closed form
slope = (n Σ i·y_i − Σi · Σy) / (n Σi² − (Σi)²); the fit the code computes in
floating point is modelled exactly over ℚ. -/
def slopeNum (ys : List ℚ) : ℚ :=
  (ys.length : ℚ) * idxValSum ys - idxSum ys.length * valSum ys

/-- Denominator of the ordinary-least-squares slope. -/
def slopeDen (ys : List ℚ) : ℚ :=
  (ys.length : ℚ) * idxSqSum ys.length - idxSum ys.length ^ 2

/-- The ordinary-least-squares slope against the 0..N-1 index. -/
def linSlope (ys : List ℚ) : ℚ := slopeNum ys / slopeDen ys

/-- `_calculate_trend` (alert_service.py lines 714-725): a series with fewer
than 2 points returns 0.0; otherwise the least-squares slope scaled by the
series length. -/
def calculate_trend (series : List ℚ) : ℚ :=
  if series.length < 2 then 0 else linSlope series * series.length

/-- `trend_direction` (historical_analyzer.py line 291): increasing when the
slope is positive, decreasing when negative, else stable. -/
def trend_direction (ys : List ℚ) : String :=
  if 0 < linSlope ys then "increasing"
  else if linSlope ys < 0 then "decreasing" else "stable"

/-- The linear-trend part of `_calculate_trend_features`
(historical_analyzer.py lines 272-291): the series is dropna-ed and the slope
and direction are produced only when more than one value remains. -/
def trend_features (series : List (Option ℚ)) : Option (ℚ × String) :=
  let values := nonMissing series
  if 1 < values.length then some (linSlope values, trend_direction values)
  else none

/-- C9: degenerate statistics resolve to the neutral value 0 — the trend of a
series with fewer than 2 points is 0.0, and the coefficient of variation of a
zero-mean series is 0, with the feature record still produced. -/
theorem degenerate_statistics_neutral :
    (∀ series : List ℚ, series.length < 2 → calculate_trend series = 0) ∧
    (∀ series : List (Option ℚ), 0 < (nonMissing series).length →
      seriesMean (nonMissing series) = 0 →
      ∃ sf : StatFeatures, statistical_features series = some sf ∧
        sf.coefficient_of_variation = PyFloat.finite 0) := by
  refine ⟨fun series h => ?_, fun series h0 hm => ?_⟩
  · unfold calculate_trend
    rw [if_pos h]
  · obtain ⟨m1, m2, hm1, hm2, heq⟩ := statistical_features_eval series h0
    refine ⟨_, heq, ?_⟩
    have hcv : (if seriesMean (nonMissing series) ≠ 0 then
        pyDivStdByMean (seriesStd (nonMissing series)) (seriesMean (nonMissing series))
      else PyFloat.finite 0) = PyFloat.finite 0 := by
      rw [if_neg (by simp [hm])]
    exact hcv

/-- Witness for the C9 theorem: a one-point series has trend 0 and a concrete
zero-mean series has coefficient of variation 0. -/
theorem degenerate_statistics_neutral_witness :
    calculate_trend [5] = 0 ∧
    ∃ sf : StatFeatures, statistical_features [some 2, some (-2)] = some sf ∧
      sf.coefficient_of_variation = PyFloat.finite 0 :=
  ⟨degenerate_statistics_neutral.1 [5] (by decide),
   degenerate_statistics_neutral.2 [some 2, some (-2)] (by decide)
     (by
       have h : nonMissing [some 2, some (-2)] = [(2 : ℚ), -2] := by
         simp [nonMissing]
       rw [h]
       norm_num [seriesMean])⟩

/-- Symmetrization identity behind the least-squares sign analysis. -/
theorem double_sum_identity (n : ℕ) (f g : ℕ → ℚ) :
    ∑ i ∈ Finset.range n, ∑ j ∈ Finset.range n, (f i - f j) * (g i - g j)
      = 2 * ((n : ℚ) * (∑ i ∈ Finset.range n, f i * g i)
        - (∑ i ∈ Finset.range n, f i) * (∑ i ∈ Finset.range n, g i)) := by
  simp only [sub_mul, mul_sub, Finset.sum_sub_distrib, Finset.sum_const,
    Finset.card_range, nsmul_eq_mul, ← Finset.mul_sum, ← Finset.sum_mul]
  ring

/-- The slope numerator as a sum of pairwise products. -/
theorem two_mul_slopeNum (ys : List ℚ) :
    2 * slopeNum ys = ∑ i ∈ Finset.range ys.length, ∑ j ∈ Finset.range ys.length,
      ((i : ℚ) - (j : ℚ)) * (ys.getD i 0 - ys.getD j 0) := by
  rw [double_sum_identity ys.length (fun i => (i : ℚ)) (fun i => ys.getD i 0)]
  unfold slopeNum idxValSum idxSum valSum
  ring

/-- The slope denominator as a sum of pairwise squares. -/
theorem two_mul_slopeDen (ys : List ℚ) :
    2 * slopeDen ys = ∑ i ∈ Finset.range ys.length, ∑ j ∈ Finset.range ys.length,
      ((i : ℚ) - (j : ℚ)) * ((i : ℚ) - (j : ℚ)) := by
  rw [double_sum_identity ys.length (fun i => (i : ℚ)) (fun i => (i : ℚ))]
  unfold slopeDen idxSqSum idxSum
  simp only [pow_two]

/-- The least-squares denominator is positive for two or more points. -/
theorem slopeDen_pos (ys : List ℚ) (h2 : 2 ≤ ys.length) : 0 < slopeDen ys := by
  have h : 0 < 2 * slopeDen ys := by
    rw [two_mul_slopeDen]
    refine Finset.sum_pos' (fun i _ => Finset.sum_nonneg (fun j _ => mul_self_nonneg _)) ?_
    refine ⟨1, Finset.mem_range.mpr (by omega), ?_⟩
    refine Finset.sum_pos' (fun j _ => mul_self_nonneg _) ⟨0, Finset.mem_range.mpr (by omega), by norm_num⟩
  linarith

/-- For a nondecreasing series whose last value strictly exceeds its first,
the slope numerator is positive. -/
theorem slopeNum_pos_of_nondecr (ys : List ℚ) (h2 : 2 ≤ ys.length)
    (hm : ∀ i j : ℕ, i ≤ j → j < ys.length → ys.getD i 0 ≤ ys.getD j 0)
    (hlt : ys.getD 0 0 < ys.getD (ys.length - 1) 0) : 0 < slopeNum ys := by
  have hterm : ∀ i ∈ Finset.range ys.length, ∀ j ∈ Finset.range ys.length,
      0 ≤ ((i : ℚ) - (j : ℚ)) * (ys.getD i 0 - ys.getD j 0) := by
    intro i hi j hj
    rcases le_total i j with hij | hij
    · have h1 : ((i : ℚ) - (j : ℚ)) ≤ 0 := by
        simp only [sub_nonpos]
        exact_mod_cast hij
      have h2q : ys.getD i 0 - ys.getD j 0 ≤ 0 := by
        simp only [sub_nonpos]
        exact hm i j hij (Finset.mem_range.mp hj)
      have hnn := mul_nonneg (neg_nonneg.mpr h1) (neg_nonneg.mpr h2q)
      have hswap : ((i : ℚ) - (j : ℚ)) * (ys.getD i 0 - ys.getD j 0)
          = (-((i : ℚ) - (j : ℚ))) * (-(ys.getD i 0 - ys.getD j 0)) := by ring
      rw [hswap]
      exact hnn
    · have h1 : (0 : ℚ) ≤ (i : ℚ) - (j : ℚ) := by
        simp only [sub_nonneg]
        exact_mod_cast hij
      have h2q : (0 : ℚ) ≤ ys.getD i 0 - ys.getD j 0 := by
        simp only [sub_nonneg]
        exact hm j i hij (Finset.mem_range.mp hi)
      exact mul_nonneg h1 h2q
  have h : 0 < 2 * slopeNum ys := by
    rw [two_mul_slopeNum]
    refine Finset.sum_pos' (fun i hi => Finset.sum_nonneg (fun j hj => hterm i hi j hj)) ?_
    refine ⟨ys.length - 1, Finset.mem_range.mpr (by omega), ?_⟩
    have hmem : ys.length - 1 ∈ Finset.range ys.length := Finset.mem_range.mpr (by omega)
    refine Finset.sum_pos' (fun j hj => hterm _ hmem j hj)
      ⟨0, Finset.mem_range.mpr (by omega), ?_⟩
    have hc : (0 : ℚ) < ((ys.length - 1 : ℕ) : ℚ) := by
      have : 1 ≤ ys.length - 1 := by omega
      exact_mod_cast Nat.lt_of_lt_of_le Nat.zero_lt_one this
    push_cast
    push_cast at hc
    nlinarith [hlt]
  linarith

/-- A constant series has slope numerator zero. -/
theorem slopeNum_eq_zero_of_const (ys : List ℚ)
    (hc : ∀ i : ℕ, i < ys.length → ys.getD i 0 = ys.getD 0 0) :
    slopeNum ys = 0 := by
  have h : 2 * slopeNum ys = 0 := by
    rw [two_mul_slopeNum]
    refine Finset.sum_eq_zero (fun i hi => Finset.sum_eq_zero (fun j hj => ?_))
    rw [hc i (Finset.mem_range.mp hi), hc j (Finset.mem_range.mp hj)]
    ring
  linarith

/-- The sign of the slope is the sign of its numerator. -/
theorem linSlope_sign_iff (ys : List ℚ) (h2 : 2 ≤ ys.length) :
    (0 < linSlope ys ↔ 0 < slopeNum ys) ∧
    (linSlope ys < 0 ↔ slopeNum ys < 0) ∧
    (linSlope ys = 0 ↔ slopeNum ys = 0) := by
  have hden := slopeDen_pos ys h2
  unfold linSlope
  refine ⟨⟨fun h => ?_, fun h => div_pos h hden⟩,
    ⟨fun h => ?_, fun h => div_neg_of_neg_of_pos h hden⟩,
    ⟨fun h => ?_, fun h => by rw [h, zero_div]⟩⟩
  · rcases div_pos_iff.mp h with ⟨h1, -⟩ | ⟨-, h2d⟩
    · exact h1
    · linarith
  · rcases div_neg_iff.mp h with ⟨-, h2d⟩ | ⟨h1, -⟩
    · linarith
    · exact h1
  · rcases div_eq_zero_iff.mp h with h1 | h1
    · exact h1
    · exact absurd h1 (by linarith)

/-- Sign of the least-squares slope of a nondecreasing series against the
sign of (last value - first value). -/
theorem slope_sign_nondecr (ys : List ℚ) (h2 : 2 ≤ ys.length)
    (hm : ∀ i j : ℕ, i ≤ j → j < ys.length → ys.getD i 0 ≤ ys.getD j 0) :
    (0 < linSlope ys ↔ ys.getD 0 0 < ys.getD (ys.length - 1) 0) ∧
    (linSlope ys < 0 ↔ ys.getD (ys.length - 1) 0 < ys.getD 0 0) ∧
    (linSlope ys = 0 ↔ ys.getD 0 0 = ys.getD (ys.length - 1) 0) := by
  obtain ⟨k1, k2, k3⟩ := linSlope_sign_iff ys h2
  have hfl : ys.getD 0 0 ≤ ys.getD (ys.length - 1) 0 :=
    hm 0 (ys.length - 1) (by omega) (by omega)
  have hnum_pos : ys.getD 0 0 < ys.getD (ys.length - 1) 0 → 0 < slopeNum ys :=
    slopeNum_pos_of_nondecr ys h2 hm
  have hnum_zero : ys.getD 0 0 = ys.getD (ys.length - 1) 0 → slopeNum ys = 0 := by
    intro he
    refine slopeNum_eq_zero_of_const ys (fun i hi => ?_)
    have ha : ys.getD 0 0 ≤ ys.getD i 0 := hm 0 i (by omega) hi
    have hb : ys.getD i 0 ≤ ys.getD (ys.length - 1) 0 := hm i (ys.length - 1) (by omega) (by omega)
    linarith
  refine ⟨⟨fun h => ?_, fun h => k1.mpr (hnum_pos h)⟩,
    ⟨fun h => ?_, fun h => absurd h (by linarith)⟩,
    ⟨fun h => ?_, fun h => k3.mpr (hnum_zero h)⟩⟩
  · rcases lt_or_eq_of_le hfl with hlt | heq
    · exact hlt
    · exact absurd (k3.mpr (hnum_zero heq)) (by have := k1.mp h; linarith)
  · rcases lt_or_eq_of_le hfl with hlt | heq
    · have := k1.mpr (hnum_pos hlt)
      linarith [k2.mp h]
    · have := k3.mpr (hnum_zero heq)
      linarith [k2.mp h]
  · rcases lt_or_eq_of_le hfl with hlt | heq
    · have := k1.mpr (hnum_pos hlt)
      have hz := k3.mp h
      linarith
    · exact heq

/-- Pointwise negation read through a defaulted index. -/
theorem getD_map_neg (ys : List ℚ) (i : ℕ) :
    (ys.map (fun x => -x)).getD i 0 = -(ys.getD i 0) := by
  simp only [List.getD_eq_getElem?_getD, List.getElem?_map]
  cases h : ys[i]? with
  | none => simp [h]
  | some a => simp [h]

/-- Value sums negate pointwise. -/
theorem valSum_map_neg (ys : List ℚ) : valSum (ys.map (fun x => -x)) = -valSum ys := by
  unfold valSum
  rw [List.length_map, ← Finset.sum_neg_distrib]
  exact Finset.sum_congr rfl (fun i _ => getD_map_neg ys i)

/-- Index-weighted sums negate pointwise. -/
theorem idxValSum_map_neg (ys : List ℚ) :
    idxValSum (ys.map (fun x => -x)) = -idxValSum ys := by
  unfold idxValSum
  rw [List.length_map, ← Finset.sum_neg_distrib]
  refine Finset.sum_congr rfl (fun i _ => ?_)
  rw [getD_map_neg]
  ring

/-- The slope numerator negates with the series. -/
theorem slopeNum_map_neg (ys : List ℚ) :
    slopeNum (ys.map (fun x => -x)) = -slopeNum ys := by
  unfold slopeNum
  rw [List.length_map, valSum_map_neg, idxValSum_map_neg]
  ring

/-- The slope negates with the series. -/
theorem linSlope_map_neg (ys : List ℚ) :
    linSlope (ys.map (fun x => -x)) = -linSlope ys := by
  unfold linSlope slopeDen
  rw [List.length_map, slopeNum_map_neg, neg_div]

/-- Sign of the least-squares slope of a nonincreasing series against the
sign of (last value - first value), by reduction to the nondecreasing case
over the negated series. -/
theorem slope_sign_nonincr (ys : List ℚ) (h2 : 2 ≤ ys.length)
    (hm : ∀ i j : ℕ, i ≤ j → j < ys.length → ys.getD j 0 ≤ ys.getD i 0) :
    (0 < linSlope ys ↔ ys.getD 0 0 < ys.getD (ys.length - 1) 0) ∧
    (linSlope ys < 0 ↔ ys.getD (ys.length - 1) 0 < ys.getD 0 0) ∧
    (linSlope ys = 0 ↔ ys.getD 0 0 = ys.getD (ys.length - 1) 0) := by
  have hyn := slope_sign_nondecr (ys.map (fun x => -x))
    (by rw [List.length_map]; exact h2)
    (fun i j hij hj => by
      rw [getD_map_neg, getD_map_neg]
      exact neg_le_neg (hm i j hij (by rw [List.length_map] at hj; exact hj)))
  rw [linSlope_map_neg, List.length_map, getD_map_neg, getD_map_neg] at hyn
  obtain ⟨t1, t2, t3⟩ := hyn
  refine ⟨⟨fun hs1 => ?_, fun hs2 => ?_⟩, ⟨fun hs3 => ?_, fun hs4 => ?_⟩,
    ⟨fun hs5 => ?_, fun hs6 => ?_⟩⟩
  · have := t2.mp (by linarith)
    linarith
  · have := t2.mpr (by linarith)
    linarith
  · have := t1.mp (by linarith)
    linarith
  · have := t1.mpr (by linarith)
    linarith
  · have := t3.mp (by linarith)
    linarith
  · have := t3.mpr (by linarith)
    linarith

/-- Characterization of the reported trend direction string. -/
theorem trend_direction_iffs (ys : List ℚ) :
    (trend_direction ys = "increasing" ↔ 0 < linSlope ys) ∧
    (trend_direction ys = "decreasing" ↔ linSlope ys < 0) ∧
    (trend_direction ys = "stable" ↔ linSlope ys = 0) := by
  unfold trend_direction
  rcases lt_trichotomy (linSlope ys) 0 with h | h | h
  · rw [if_neg (by linarith), if_pos h]
    exact ⟨⟨fun hx => absurd hx (by decide), fun hx => absurd hx (by linarith)⟩,
      ⟨fun _ => h, fun _ => rfl⟩,
      ⟨fun hx => absurd hx (by decide), fun hx => absurd hx (by linarith)⟩⟩
  · rw [if_neg (by linarith), if_neg (by linarith)]
    exact ⟨⟨fun hx => absurd hx (by decide), fun hx => absurd hx (by linarith)⟩,
      ⟨fun hx => absurd hx (by decide), fun hx => absurd hx (by linarith)⟩,
      ⟨fun _ => h, fun _ => rfl⟩⟩
  · rw [if_pos h]
    exact ⟨⟨fun _ => h, fun _ => rfl⟩,
      ⟨fun hx => absurd hx (by decide), fun hx => absurd hx (by linarith)⟩,
      ⟨fun hx => absurd hx (by decide), fun hx => absurd hx (by linarith)⟩⟩

/-- C8: for every series with at least 2 non-missing points the trend
features report the least-squares slope and label the direction increasing
iff the slope is positive, decreasing iff negative, stable iff zero; and when
the non-missing values are monotonic (either direction) the sign of the slope
matches the sign of (last value - first value). -/
theorem trend_slope_sign_and_direction (series : List (Option ℚ))
    (h2 : 2 ≤ (nonMissing series).length) :
    ∃ sl : ℚ, ∃ dir : String,
      trend_features series = some (sl, dir) ∧
      sl = linSlope (nonMissing series) ∧
      (dir = "increasing" ↔ 0 < sl) ∧
      (dir = "decreasing" ↔ sl < 0) ∧
      (dir = "stable" ↔ sl = 0) ∧
      (((∀ i j : ℕ, i ≤ j → j < (nonMissing series).length →
            (nonMissing series).getD i 0 ≤ (nonMissing series).getD j 0) ∨
        (∀ i j : ℕ, i ≤ j → j < (nonMissing series).length →
            (nonMissing series).getD j 0 ≤ (nonMissing series).getD i 0)) →
        ((0 < sl ↔ (nonMissing series).getD 0 0
            < (nonMissing series).getD ((nonMissing series).length - 1) 0) ∧
         (sl < 0 ↔ (nonMissing series).getD ((nonMissing series).length - 1) 0
            < (nonMissing series).getD 0 0) ∧
         (sl = 0 ↔ (nonMissing series).getD 0 0
            = (nonMissing series).getD ((nonMissing series).length - 1) 0))) := by
  obtain ⟨d1, d2, d3⟩ := trend_direction_iffs (nonMissing series)
  refine ⟨linSlope (nonMissing series), trend_direction (nonMissing series),
    ?_, rfl, d1, d2, d3, ?_⟩
  · unfold trend_features
    rw [if_pos (by omega)]
  · rintro (hmono | hmono)
    · exact slope_sign_nondecr (nonMissing series) h2 hmono
    · exact slope_sign_nonincr (nonMissing series) h2 hmono

/-- Witness for the C8 theorem at a concrete two-point series. -/
theorem trend_slope_sign_and_direction_witness :
    ∃ sl : ℚ, ∃ dir : String,
      trend_features [some 1, some 3] = some (sl, dir) ∧
      sl = linSlope (nonMissing [some 1, some 3]) ∧
      (dir = "increasing" ↔ 0 < sl) ∧
      (dir = "decreasing" ↔ sl < 0) ∧
      (dir = "stable" ↔ sl = 0) ∧
      (((∀ i j : ℕ, i ≤ j → j < (nonMissing [some 1, some 3]).length →
            (nonMissing [some 1, some 3]).getD i 0 ≤ (nonMissing [some 1, some 3]).getD j 0) ∨
        (∀ i j : ℕ, i ≤ j → j < (nonMissing [some 1, some 3]).length →
            (nonMissing [some 1, some 3]).getD j 0 ≤ (nonMissing [some 1, some 3]).getD i 0)) →
        ((0 < sl ↔ (nonMissing [some 1, some 3]).getD 0 0
            < (nonMissing [some 1, some 3]).getD ((nonMissing [some 1, some 3]).length - 1) 0) ∧
         (sl < 0 ↔ (nonMissing [some 1, some 3]).getD ((nonMissing [some 1, some 3]).length - 1) 0
            < (nonMissing [some 1, some 3]).getD 0 0) ∧
         (sl = 0 ↔ (nonMissing [some 1, some 3]).getD 0 0
            = (nonMissing [some 1, some 3]).getD ((nonMissing [some 1, some 3]).length - 1) 0))) :=
  trend_slope_sign_and_direction [some 1, some 3] (by decide)
